import Mathlib

/-!
Verification of the survey-agent control loop (`graph.py`, `tools.py`,
`main.py`) against its natural-language specification.

The development shallowly embeds the Python source: pure helpers become Lean
functions, the LangGraph nodes become explicit state-transition functions over
an `AgentState` record, the language-model calls become oracle parameters
(`String` for a returned response, `Option String` where the source wraps the
call in `try`), and Python exceptions become `Except` results.  `json.loads`
and `json.dumps` are modelled by a total recursive-descent JSON parser and
printer over an explicit `JsonValue` type (integers only for numbers; string
escaping restricted to the short escapes actually exercised here).
-/

set_option maxRecDepth 10000

namespace SurveyAgent

/-! ### Character and substring helpers (Python `str` operations) -/

/-- Python `\s` on the ASCII range: space, tab, newline, carriage return,
form feed, vertical tab. -/
def pyIsSpace (c : Char) : Bool :=
  c = ' ' || c = '\t' || c = '\n' || c = '\r' || c = '\x0c' || c = '\x0b'

/-- Drop leading whitespace, used wherever the decoder and the regexes
skip blanks. -/
def skipBlank : List Char → List Char
  | [] => []
  | c :: cs => if pyIsSpace c then skipBlank cs else c :: cs

/-- Bool-valued substring test on char lists: Python's `pat in hay`. -/
def listSub (hay pat : List Char) : Bool :=
  if pat.isPrefixOf hay then true
  else
    match hay with
    | [] => false
    | _ :: t => listSub t pat

/-- Python's `pat in hay` on strings. -/
def strContains (hay pat : String) : Bool :=
  listSub hay.data pat.data

/-- ASCII lower-casing of one character (Python `str.lower` restricted to the
ASCII inputs this program deals with). -/
def asciiLower (c : Char) : Char :=
  if 'A' ≤ c && c ≤ 'Z' then Char.ofNat (c.toNat + 32) else c

/-- Python `s.lower()` over the ASCII range, computed on the char list. -/
def strLower (s : String) : String :=
  String.mk (s.data.map asciiLower)

/-- Python `s[:n]` as a kernel-reducible operation. -/
def strTake (s : String) (n : Nat) : String :=
  String.mk (s.data.take n)

/-! ### `semantic_url_check` (graph.py lines 76–96) -/

/-- The fixed domain allow-list from `semantic_url_check`. -/
def known_domains : List String :=
  ["google.com", "instagram.com", "facebook.com", "twitter.com",
   "linkedin.com", "github.com", "amazon.com"]

/-- Python `domain.split(".")[0]`. -/
def domainBareName (d : String) : String :=
  String.mk (d.data.takeWhile (· ≠ '.'))

/-- Embedding of `semantic_url_check(intent, url)`: the YouTube rule first,
then the known-domain rules, `True` otherwise. -/
def semantic_url_check (intent url : String) : Bool :=
  let il := strLower intent
  let ul := strLower url
  if strContains il "youtube" && !(strContains ul "youtube.com") then
    false
  else if known_domains.any (fun d => strContains il (domainBareName d) && !(strContains ul d)) then
    false
  else
    true

/-! ### JSON values (the payloads of `json.loads` / `json.dumps`)

Numbers are modelled as integers (the only numerals this program produces or
consumes); object members keep their textual order, as Python 3.7+ dicts do. -/

inductive JsonValue where
  | null
  | bool (b : Bool)
  | num (n : Int)
  | str (s : String)
  | arr (xs : List JsonValue)
  | obj (kvs : List (String × JsonValue))

/-- Python `d.get(key)` on an object member list: first binding wins. -/
def jlookup (key : String) : List (String × JsonValue) → Option JsonValue
  | [] => none
  | (k, v) :: rest => if k = key then some v else jlookup key rest

/-- Python truthiness of a JSON value (`if not x`). -/
def pyTruthy : JsonValue → Bool
  | .null => false
  | .bool b => b
  | .num n => n ≠ 0
  | .str s => s ≠ ""
  | .arr xs => !xs.isEmpty
  | .obj kvs => !kvs.isEmpty

/-! ### Decimal digits -/

/-- The character of a decimal digit `n < 10`. -/
def decDigit (n : Nat) : Char := Char.ofNat (48 + n)

/-- The decimal digits of `n`, most significant first (fuel-driven so the
kernel can evaluate it). -/
def natDigitsAux : Nat → Nat → List Char
  | 0, _ => []
  | fuel + 1, n =>
    if n < 10 then [decDigit n]
    else natDigitsAux fuel (n / 10) ++ [decDigit (n % 10)]

/-- Decimal rendering of a natural number. -/
def natDigits (n : Nat) : List Char := natDigitsAux (n + 1) n

/-- Decimal rendering of an integer, Python `str(i)` / `json.dumps(i)`. -/
def intDigits (i : Int) : List Char :=
  if i < 0 then '-' :: natDigits i.natAbs else natDigits i.toNat

/-! ### The printer (`json.dumps` with its default separators `", "`, `": "`) -/

/-- One character of a JSON string body.  `json.dumps` escapes the quote, the
backslash and the common control characters; other characters pass through. -/
def escChar (c : Char) : List Char :=
  if c = '"' then ['\\', '"']
  else if c = '\\' then ['\\', '\\']
  else if c = '\n' then ['\\', 'n']
  else if c = '\t' then ['\\', 't']
  else if c = '\r' then ['\\', 'r']
  else [c]

/-- A quoted, escaped JSON string literal. -/
def printStr (s : String) : List Char :=
  '"' :: (s.data.flatMap escChar ++ ['"'])

mutual

/-- Characters of `json.dumps(v)`. -/
def printVal : JsonValue → List Char
  | .null => "null".data
  | .bool true => "true".data
  | .bool false => "false".data
  | .num i => intDigits i
  | .str s => printStr s
  | .arr xs => '[' :: (printElems xs ++ [']'])
  | .obj kvs => Char.ofNat 123 :: (printMembers kvs ++ [Char.ofNat 125])

/-- Array elements joined by `", "`. -/
def printElems : List JsonValue → List Char
  | [] => []
  | [x] => printVal x
  | x :: y :: rest => printVal x ++ ',' :: ' ' :: printElems (y :: rest)

/-- Object members `"k": v` joined by `", "`. -/
def printMembers : List (String × JsonValue) → List Char
  | [] => []
  | [(k, v)] => printStr k ++ ':' :: ' ' :: printVal v
  | (k, v) :: m :: rest => printStr k ++ ':' :: ' ' :: printVal v ++ ',' :: ' ' :: printMembers (m :: rest)

end

/-- The text of `json.dumps(v)` as a string. -/
def json_dumps (v : JsonValue) : String := String.mk (printVal v)

/-! ### The parser (`json.loads`) -/

/-- Unescaping of the character after a backslash in a string literal. -/
def unescChar (c : Char) : Option Char :=
  if c = '"' then some '"'
  else if c = '\\' then some '\\'
  else if c = '/' then some '/'
  else if c = 'n' then some '\n'
  else if c = 't' then some '\t'
  else if c = 'r' then some '\r'
  else none

/-- Body of a string literal after the opening quote: collected characters and
the remainder after the closing quote. -/
def parseStrBody : List Char → Option (List Char × List Char)
  | [] => none
  | c :: rest =>
    if c = '"' then some ([], rest)
    else if c = '\\' then
      match rest with
      | [] => none
      | e :: rest2 =>
        match unescChar e with
        | none => none
        | some u =>
          match parseStrBody rest2 with
          | none => none
          | some (body, rem) => some (u :: body, rem)
    else
      match parseStrBody rest with
      | none => none
      | some (body, rem) => some (c :: body, rem)

/-- Greedy run of decimal digits. -/
def takeDigits : List Char → List Char × List Char
  | [] => ([], [])
  | c :: cs =>
    if c.isDigit then
      let (ds, rem) := takeDigits cs
      (c :: ds, rem)
    else ([], c :: cs)

/-- Numeric value of a digit run. -/
def digitsVal (ds : List Char) : Nat :=
  ds.foldl (fun acc c => acc * 10 + (c.toNat - 48)) 0

/-- An unsigned JSON integer: at least one digit, no leading zero, and no
fraction or exponent (floats are outside this model). -/
def parseNatNum (cs : List Char) : Option (Nat × List Char) :=
  let (ds, rem) := takeDigits cs
  match ds with
  | [] => none
  | d :: ds' =>
    if d = '0' && !ds'.isEmpty then none
    else
      match rem with
      | [] => some (digitsVal ds, [])
      | c :: _ =>
        if c = '.' || c = 'e' || c = 'E' then none
        else some (digitsVal ds, rem)

/-- A JSON number (optional minus sign). -/
def parseNum : List Char → Option (Int × List Char)
  | [] => none
  | c :: rest =>
    if c = '-' then
      match parseNatNum rest with
      | none => none
      | some (n, rem) => some (-(n : Int), rem)
    else
      match parseNatNum (c :: rest) with
      | none => none
      | some (n, rem) => some ((n : Int), rem)

/-- A remainder a rendered number may safely abut: its head, if any, must not
extend the digit run or start a fraction or exponent. -/
def numSafe : List Char → Bool
  | [] => true
  | c :: _ => !(c.isDigit || c = '.' || c = 'e' || c = 'E')

mutual

/-- One JSON value (leading blanks allowed), by recursive descent on `fuel`. -/
def parseVal (fuel : Nat) (cs : List Char) : Option (JsonValue × List Char) :=
  match fuel with
  | 0 => none
  | fuel + 1 =>
    match skipBlank cs with
    | 'n' :: 'u' :: 'l' :: 'l' :: r => some (.null, r)
    | 't' :: 'r' :: 'u' :: 'e' :: r => some (.bool true, r)
    | 'f' :: 'a' :: 'l' :: 's' :: 'e' :: r => some (.bool false, r)
    | '"' :: r =>
      match parseStrBody r with
      | none => none
      | some (body, rem) => some (.str (String.mk body), rem)
    | '[' :: r =>
      match skipBlank r with
      | ']' :: rem => some (.arr [], rem)
      | r' =>
        match parseElems fuel r' with
        | none => none
        | some (xs, rem) => some (.arr xs, rem)
    | c :: r =>
      if c = Char.ofNat 123 then
        match skipBlank r with
        | c' :: rem =>
          if c' = Char.ofNat 125 then some (.obj [], rem)
          else
            match parseMembers fuel (c' :: rem) with
            | none => none
            | some (kvs, rem') => some (.obj kvs, rem')
        | [] => none
      else if c = '-' || c.isDigit then
        match parseNum (c :: r) with
        | none => none
        | some (i, rem) => some (.num i, rem)
      else none
    | [] => none

/-- One or more comma-separated array elements and the closing bracket. -/
def parseElems (fuel : Nat) (cs : List Char) : Option (List JsonValue × List Char) :=
  match fuel with
  | 0 => none
  | fuel + 1 =>
    match parseVal fuel cs with
    | none => none
    | some (v, r) =>
      match skipBlank r with
      | ',' :: r' =>
        match parseElems fuel (skipBlank r') with
        | none => none
        | some (vs, rem) => some (v :: vs, rem)
      | ']' :: rem => some ([v], rem)
      | _ => none

/-- One or more comma-separated object members and the closing brace. -/
def parseMembers (fuel : Nat) (cs : List Char) :
    Option (List (String × JsonValue) × List Char) :=
  match fuel with
  | 0 => none
  | fuel + 1 =>
    match skipBlank cs with
    | '"' :: r =>
      match parseStrBody r with
      | none => none
      | some (key, r1) =>
        match skipBlank r1 with
        | ':' :: r2 =>
          match parseVal fuel (skipBlank r2) with
          | none => none
          | some (v, r3) =>
            match skipBlank r3 with
            | ',' :: r4 =>
              match parseMembers fuel (skipBlank r4) with
              | none => none
              | some (kvs, rem) => some ((String.mk key, v) :: kvs, rem)
            | c :: r4 =>
              if c = Char.ofNat 125 then some ([(String.mk key, v)], r4)
              else none
            | [] => none
        | _ => none
    | _ => none

end

/-- Model of `json.loads(t)`: parse one value and insist nothing but blanks
follows. -/
def json_loads (t : String) : Option JsonValue :=
  match parseVal (t.data.length + 1) t.data with
  | none => none
  | some (v, rest) => if (skipBlank rest).isEmpty then some v else none

/-! ### The regex candidates of `extract_json` (graph.py lines 47–73) -/

/-- The three-backtick fence marker. -/
def fenceMark : List Char := [Char.ofNat 96, Char.ofNat 96, Char.ofNat 96]

/-- Lazy capture of `([\s\S]*?)` up to the next closing fence: `some content`
when a fence occurs in `cs`, `none` otherwise. -/
def captureToFence : List Char → Option (List Char)
  | [] => none
  | c :: rest =>
    if fenceMark.isPrefixOf (c :: rest) then some []
    else
      match captureToFence rest with
      | none => none
      | some content => some (c :: content)

/-- Model of the fenced-block regex search over the char list: try each
start position left to right; at a fence, optionally consume `json`, skip the
greedy blank run, and capture lazily up to the closing fence. -/
def fencedSearch : List Char → Option (List Char)
  | [] => none
  | c :: rest =>
    if fenceMark.isPrefixOf (c :: rest) then
      let r1 := (c :: rest).drop 3
      let r2 := if ['j', 's', 'o', 'n'].isPrefixOf r1 then r1.drop 4 else r1
      let r3 := skipBlank r2
      match captureToFence r3 with
      | some content => some content
      | none => fencedSearch rest
    else fencedSearch rest

/-- The fenced-block candidate (`match.group(1)`) as a string. -/
def fencedCandidate (t : String) : Option String :=
  (fencedSearch t.data).map String.mk

/-- Index of the first occurrence of `c`. -/
def firstIdxOf (c : Char) (cs : List Char) : Option Nat :=
  cs.findIdx? (· = c)

/-- Index of the last occurrence of `c`. -/
def lastIdxOf (c : Char) (cs : List Char) : Option Nat :=
  (cs.reverse.findIdx? (· = c)).map (fun i => cs.length - 1 - i)

/-- Model of the greedy array regex search (and its brace analogue): the span from the
first opening character to the last closing character, when the latter comes
after the former. -/
def greedySpan (opc clc : Char) (t : String) : Option String :=
  match firstIdxOf opc t.data, lastIdxOf clc t.data with
  | some i, some j =>
    if i < j then some (String.mk ((t.data.drop i).take (j - i + 1))) else none
  | _, _ => none

/-- The `ValueError` message raised when nothing parses, with its 300-character
prefix of the offending text. -/
def noJsonMsg (t : String) : String :=
  "Nenhum JSON válido encontrado na resposta: " ++ strTake t 300

/-- Embedding of `extract_json(text)`: the fenced block, then the greedy array
span, then the greedy object span, each parsed independently with fall-through;
`ValueError` becomes the `Except.error` case. -/
def extract_json (t : String) : Except String JsonValue :=
  match (fencedCandidate t).bind json_loads with
  | some v => .ok v
  | none =>
    match (greedySpan '[' ']' t).bind json_loads with
    | some v => .ok v
    | none =>
      match (greedySpan (Char.ofNat 123) (Char.ofNat 125) t).bind json_loads with
      | some v => .ok v
      | none => .error (noJsonMsg t)

/-- The candidate texts of the amended extractor contract, in the order the
source tries them. -/
def candidateTexts (t : String) : List (Option String) :=
  [fencedCandidate t, greedySpan '[' ']' t, greedySpan (Char.ofNat 123) (Char.ofNat 125) t]

/-- Spec-side extractor, transcribed from the (amended) contract wording: the
first candidate that parses wins; if none parses, fail with the documented
message carrying the first 300 characters. -/
def extract_json_spec (t : String) : Except String JsonValue :=
  match (candidateTexts t).filterMap (fun c => c.bind json_loads) with
  | v :: _ => .ok v
  | [] => .error (noJsonMsg t)

/-! ### Agent state (`AgentState`, graph.py lines 30–39; initial value from
`main.py` lines 151–162)

The `step_log` field is a write-only presentation log no other code reads; it
is omitted from the model.  Language-model calls appear as oracle parameters:
a plain `String` where the source calls `llm.invoke` outside `try` (a raised
call would abort the whole run there), an `Option String` where the call is
inside `try` (`none` models a raised call). -/

/-- One entry of `results_history` (graph.py lines 254–256). -/
structure Outcome where
  step : Nat
  action : JsonValue
  input : JsonValue
  result : String
  description : JsonValue

/-- The mutable session state threaded through the graph. -/
structure AgentState where
  user_input : String
  intent : String
  plan : List JsonValue
  current_step : Nat
  last_result : String
  results_history : List Outcome
  final_answer : String
  error : String
  _validation : JsonValue

/-- The initial state built in `main.py`. -/
def initState (u : String) : AgentState :=
  { user_input := u
    intent := ""
    plan := []
    current_step := 0
    last_result := ""
    results_history := []
    final_answer := ""
    error := ""
    _validation := .obj [] }

/-- Python `str(x)` for the JSON payloads that reach message formatting.
Container rendering is approximated by the JSON text (Python would use
`repr`); no modelled code path depends on that corner. -/
def pyStr : JsonValue → String
  | .str s => s
  | .num i => String.mk (intDigits i)
  | .bool true => "True"
  | .bool false => "False"
  | .null => "None"
  | .arr xs => String.mk (printVal (.arr xs))
  | .obj kvs => String.mk (printVal (.obj kvs))

/-! ### Node 1: `intent_analysis` (graph.py lines 101–143) -/

/-- The intent recorded by `intent_analysis` for a model response `resp`:
`data.get("intent_summary", user_input)` when extraction yields a dict, the
raw user text when extraction fails or `.get` raises inside the `try`.  (When
the summary field holds a non-string JSON value the source would store that
raw value; the model keeps the user text — no claim depends on that corner.) -/
def intentOf (resp u : String) : String :=
  match extract_json resp with
  | .ok (.obj kvs) =>
    match jlookup "intent_summary" kvs with
    | some (.str t) => t
    | some _ => u
    | none => u
  | .ok _ => u
  | .error _ => u

/-- The `intent_analysis` node. -/
def intent_analysis (resp : String) (s : AgentState) : AgentState :=
  { s with intent := intentOf resp s.user_input }

/-! ### Node 2: `plan_generation` (graph.py lines 146–213) -/

/-- The fallback single-step plan built when no plan parses. -/
def fallback_plan (u : String) : List JsonValue :=
  [.obj [("step", .num 1),
         ("action", .str "search_web"),
         ("input", .str u),
         ("description", .str "Busca inicial sobre a solicitação")]]

/-- The plan recorded for a model response: the parsed JSON (wrapped in a
one-element list when it is not a list), or the fallback plan. -/
def planOf (resp u : String) : List JsonValue :=
  match extract_json resp with
  | .ok (.arr xs) => xs
  | .ok v => [v]
  | .error _ => fallback_plan u

/-- The `plan_generation` node: records the plan and resets the cursor and the
history. -/
def plan_generation (resp : String) (s : AgentState) : AgentState :=
  { s with plan := planOf resp s.user_input
           current_step := 0
           results_history := [] }

/-! ### Node 3: `tool_execution` (graph.py lines 216–273) -/

/-- The names registered in `TOOL_MAP` (tools.py `ALL_TOOLS`). -/
def TOOL_NAMES : List String :=
  ["search_web", "open_url", "click_element", "type_text",
   "extract_page_elements", "get_current_url", "scroll_page"]

/-- Lookup `TOOL_MAP.get(action)` hits only when the action is one of the registered
names (a non-string key simply misses). -/
def toolFound : JsonValue → Bool
  | .str a => TOOL_NAMES.contains a
  | _ => false

/-- The blocked-navigation result string (graph.py lines 240–243). -/
def blocked_msg (url intent : String) : String :=
  "⚠️ URL \x27" ++ url ++ "\x27 foi BLOQUEADA por violar restrição semântica. " ++
    "A intenção é \x27" ++ intent ++ "\x27 e esta URL não corresponde ao domínio esperado."

/-- The result text when the tool name is absent from the registry. -/
def tool_missing_msg (action : JsonValue) : String :=
  "Tool \x27" ++ pyStr action ++ "\x27 não encontrada."

/-- The result text when the invoked capability raises `e`. -/
def tool_error_msg (action : JsonValue) (e : String) : String :=
  "Erro na execução de \x27" ++ pyStr action ++ "\x27: " ++ e

/-- An external tool capability: what `tool_fn.invoke(arg)` returns, or the
exception it raises. -/
def ToolOracle := String → JsonValue → Except String String

/-- The Python exceptions the executor can leak (attribute access on a
non-dict plan entry happens before its `try` block). -/
inductive PyErr where
  | attributeError
deriving DecidableEq, Repr

/-- The result text of the executor's dispatch for a step that resolved its
fields, mirroring the source's branch order: registry miss, semantic guard on
`open_url` with a string input, dict input passed as-is, scalar input coerced
to text, raised capability errors converted to text. -/
def dispatchResult (invoke : ToolOracle) (intent : String)
    (action inp : JsonValue) : String :=
  if !toolFound action then tool_missing_msg action
  else
    let tryRes : Except String String :=
      match action, inp with
      | .str "open_url", .str u =>
        if !semantic_url_check intent u then .ok (blocked_msg u intent)
        else invoke "open_url" (.str u)
      | .str a, .obj o => invoke a (.obj o)
      | .str a, _ => invoke a (.str (pyStr inp))
      | _, _ => .ok ""
    match tryRes with
    | .ok r => r
    | .error e => tool_error_msg action e

/-- The `tool_execution` node.  Past the end of the plan it only stamps the
terminal result; otherwise it reads the step's fields (raising on a non-dict
entry, as the source does before its `try`), dispatches, appends the outcome
and advances the cursor. -/
def tool_execution (invoke : ToolOracle) (s : AgentState) :
    Except PyErr AgentState :=
  let idx := s.current_step
  if idx ≥ s.plan.length then
    .ok { s with last_result := "Plano concluído." }
  else
    match s.plan.get? idx with
    | some (.obj kvs) =>
      let action := (jlookup "action" kvs).getD (.str "")
      let inp := (jlookup "input" kvs).getD (.str "")
      let description := (jlookup "description" kvs).getD action
      let result := dispatchResult invoke s.intent action inp
      .ok { s with
              last_result := result
              current_step := idx + 1
              results_history := s.results_history ++
                [{ step := idx + 1, action := action, input := inp,
                   result := result, description := description }] }
    | some _ => .error .attributeError
    | none => .error .attributeError

/-! ### Node 4: `validation` (graph.py lines 276–328) -/

/-- The failure keywords scanned by the deterministic pre-check (graph.py
line 286). -/
def code_error_keywords : List String :=
  ["erro", "error", "exception", "not found", "timeout", "bloqueada"]

/-- The deterministic `has_error` pre-check: case-insensitive scan of the last
result. -/
def code_has_error (last : String) : Bool :=
  code_error_keywords.any (fun k => strContains (strLower last) k)

/-- The deterministic fallback verdict recorded when the model call or its
extraction fails. -/
def fallback_verdict (s : AgentState) : JsonValue :=
  .obj [("success", .bool (!code_has_error s.last_result)),
        ("can_continue", .bool (decide (s.current_step < s.plan.length))),
        ("notes", .str ""),
        ("extracted_info", .str "")]

/-- The `validation` node: the model call and its extraction sit inside one
`try`, so a raised call (`none`) or an unparseable response degrade to the
fallback verdict; the verdict is stored in `_validation`. -/
def validation (oracle : Option String) (s : AgentState) : AgentState :=
  let data :=
    match oracle with
    | some resp =>
      match extract_json resp with
      | .ok v => v
      | .error _ => fallback_verdict s
    | none => fallback_verdict s
  { s with _validation := data }

/-! ### Node 5: `completion` (graph.py lines 331–372) -/

/-- The templated fallback answer when the synthesis call raises. -/
def completion_fallback (s : AgentState) : String :=
  "Tarefa executada com " ++ String.mk (natDigits s.results_history.length) ++
    " passos. Último resultado: " ++ strTake s.last_result 200

/-- The `completion` node: sets `final_answer` to the model's text or to the
templated summary. -/
def completion (oracle : Option String) (s : AgentState) : AgentState :=
  { s with final_answer :=
      match oracle with
      | some resp => resp
      | none => completion_fallback s }

/-! ### The router (`should_continue`, graph.py lines 377–391) -/

/-- The router: `"completion"` past the end of the plan; otherwise read the
stored verdict's `can_continue` (Python truthiness, default `True`; attribute
access raises when the stored verdict is not a dict). -/
def should_continue (s : AgentState) : Except PyErr String :=
  if s.current_step ≥ s.plan.length then .ok "completion"
  else
    match s._validation with
    | .obj kvs =>
      let c := (jlookup "can_continue" kvs).getD (.bool true)
      if !pyTruthy c then .ok "completion" else .ok "tool_execution"
    | _ => .error .attributeError

/-! ### The compiled graph (`build_graph`, graph.py lines 396–425) -/

/-- The nodes of the graph, plus the `END` sentinel. -/
inductive Node where
  | intent_analysis
  | plan_generation
  | tool_execution
  | validation
  | completion
  | terminal
deriving DecidableEq, Repr

/-- Control states reachable by the compiled graph: `Reachable n s` says the
run can be about to execute node `n` (or, for `terminal`, has ended) in state
`s`, for some sequence of oracle outcomes. -/
inductive Reachable : Node → AgentState → Prop where
  | start (u : String) : Reachable .intent_analysis (initState u)
  | ia {s} (resp : String) :
      Reachable .intent_analysis s →
      Reachable .plan_generation (intent_analysis resp s)
  | pg {s} (resp : String) :
      Reachable .plan_generation s →
      Reachable .tool_execution (plan_generation resp s)
  | te {s s'} (invoke : ToolOracle) :
      Reachable .tool_execution s →
      tool_execution invoke s = .ok s' →
      Reachable .validation s'
  | loop {s} (oracle : Option String) :
      Reachable .validation s →
      should_continue (validation oracle s) = .ok "tool_execution" →
      Reachable .tool_execution (validation oracle s)
  | finish {s} (oracle : Option String) :
      Reachable .validation s →
      should_continue (validation oracle s) = .ok "completion" →
      Reachable .completion (validation oracle s)
  | done {s} (oracle : Option String) :
      Reachable .completion s →
      Reachable .terminal (completion oracle s)

/-- The phase in which execution has started (control at `tool_execution` or
later). -/
def execStarted : Node → Bool
  | .intent_analysis => false
  | .plan_generation => false
  | _ => true

/-! ### Sample states used by concrete witnesses -/

/-- A state about to execute a `teleport` step, produced by an actual
`intent_analysis` / `plan_generation` trace. -/
def teleportState : AgentState :=
  plan_generation
    "[\x7b\"step\": 1, \"action\": \"teleport\", \"input\": \"x\", \"description\": \"t\"\x7d]"
    (intent_analysis "x" (initState "u"))

/-- A state about to execute a navigation step the guard rejects. -/
def mirrorState : AgentState :=
  { initState "Open YouTube and play a video" with
      intent := "abrir youtube"
      plan := [.obj [("step", .num 1), ("action", .str "open_url"),
                     ("input", .str "https://youtube-mirror.net")]] }

/-- A mid-run state whose stored verdict has no `can_continue` key. -/
def loopState : AgentState :=
  { initState "u" with plan := [.null], _validation := .obj [] }

/-- A state whose last result says `blocked` in English only. -/
def blockedWordState : AgentState :=
  { initState "u" with last_result := "navigation blocked", plan := [.null, .null] }

/-- The failure keywords as the specification words them (English only). -/
def spec_error_keywords : List String :=
  ["error", "exception", "not found", "timeout", "blocked"]

/-- The spec-side `has_error` predicate over the spec's keyword list. -/
def spec_has_error (last : String) : Bool :=
  spec_error_keywords.any (fun k => strContains (strLower last) k)

/-! ## Theorems

General-purpose lemmas first, then one theorem (plus counterexample and
witness where applicable) per specification claim. -/

/-- A list is a prefix of itself followed by anything. -/
theorem isPrefixOf_append_self {α : Type} [DecidableEq α] (p b : List α) :
    p.isPrefixOf (p ++ b) = true := by
  induction p with
  | nil => simp [List.isPrefixOf]
  | cons a as ih => simp [List.isPrefixOf, ih]

/-- A substring test holds when the pattern heads the haystack. -/
theorem listSub_of_isPrefixOf {hay pat : List Char} (h : pat.isPrefixOf hay = true) :
    listSub hay pat = true := by
  unfold listSub
  simp [h]

/-- The substring test survives prepending one character to the haystack. -/
theorem listSub_cons (c : Char) {hay pat : List Char} (h : listSub hay pat = true) :
    listSub (c :: hay) pat = true := by
  unfold listSub
  split
  · rfl
  · exact h

/-- The substring test survives prepending any prefix. -/
theorem listSub_append_left (a : List Char) {hay pat : List Char}
    (h : listSub hay pat = true) : listSub (a ++ hay) pat = true := by
  induction a with
  | nil => exact h
  | cons c cs ih => exact listSub_cons c ih

/-- The pattern occurs in `a ++ (pat ++ b)`. -/
theorem listSub_middle (a pat b : List Char) : listSub (a ++ (pat ++ b)) pat = true :=
  listSub_append_left a (listSub_of_isPrefixOf (isPrefixOf_append_self pat b))

/-- String-level form of `listSub_middle`. -/
theorem strContains_middle (a pat b : String) :
    strContains (a ++ (pat ++ b)) pat = true := by
  have : (a ++ (pat ++ b)).data = a.data ++ (pat.data ++ b.data) := by
    simp [String.data_append]
  unfold strContains
  rw [this]
  exact listSub_middle a.data pat.data b.data

/-! ### Digit-rendering lemmas -/

/-- The digit renderer ignores its fuel once the fuel dominates the argument. -/
theorem natDigitsAux_irrel : ∀ (n f₁ f₂ : Nat), n < f₁ → n < f₂ →
    natDigitsAux f₁ n = natDigitsAux f₂ n := by
  intro n
  induction n using Nat.strong_induction_on with
  | _ n ih =>
    intro f₁ f₂ h₁ h₂
    match f₁, f₂ with
    | g₁ + 1, g₂ + 1 =>
      by_cases hlt : n < 10
      · simp [natDigitsAux, hlt]
      · have hdiv : n / 10 < n := Nat.div_lt_self (by omega) (by omega)
        simp only [natDigitsAux, hlt, if_false]
        rw [ih (n / 10) hdiv g₁ g₂ (by omega) (by omega)]

/-- Small numbers render as a single digit. -/
theorem natDigits_small {n : Nat} (h : n < 10) : natDigits n = [decDigit n] := by
  simp [natDigits, natDigitsAux, h]

/-- Large numbers render recursively. -/
theorem natDigits_large {n : Nat} (h : 10 ≤ n) :
    natDigits n = natDigits (n / 10) ++ [decDigit (n % 10)] := by
  have hdiv : n / 10 < n := Nat.div_lt_self (by omega) (by omega)
  show natDigitsAux (n + 1) n = _
  simp only [natDigitsAux, show ¬ n < 10 by omega, if_false]
  rw [natDigitsAux_irrel (n / 10) n (n / 10 + 1) (by omega) (by omega)]
  rfl

/-- Per-digit facts used throughout, all decided on the ten concrete digit
characters. -/
theorem decDigit_facts : ∀ m : Nat, m < 10 →
    (decDigit m).isDigit = true ∧ pyIsSpace (decDigit m) = false ∧
    decDigit m ≠ 'n' ∧ decDigit m ≠ 't' ∧ decDigit m ≠ 'f' ∧
    decDigit m ≠ '"' ∧ decDigit m ≠ '[' ∧ decDigit m ≠ ']' ∧
    decDigit m ≠ Char.ofNat 123 ∧ decDigit m ≠ Char.ofNat 125 ∧
    decDigit m ≠ ',' ∧ decDigit m ≠ ':' ∧ decDigit m ≠ '-' ∧
    decDigit m ≠ '.' ∧ decDigit m ≠ 'e' ∧ decDigit m ≠ 'E' ∧
    decDigit m ≠ '\\' ∧ (decDigit m).toNat = 48 + m ∧
    (decDigit m = '0' ↔ m = 0) := by
  intro m h
  interval_cases m <;> decide

/-- A rendered natural is never empty and starts with a digit character whose
being `'0'` forces the number to be zero. -/
theorem natDigits_head : ∀ n : Nat, ∃ m t, m < 10 ∧
    natDigits n = decDigit m :: t ∧ (m = 0 → n = 0) := by
  intro n
  induction n using Nat.strong_induction_on with
  | _ n ih =>
    by_cases hlt : n < 10
    · exact ⟨n, [], hlt, natDigits_small hlt, fun h => h⟩
    · have hdiv : n / 10 < n := Nat.div_lt_self (by omega) (by omega)
      obtain ⟨m, t, hm, ht, hz⟩ := ih (n / 10) hdiv
      refine ⟨m, t ++ [decDigit (n % 10)], hm, ?_, ?_⟩
      · rw [natDigits_large (by omega), ht]; rfl
      · intro h0
        have := hz h0
        omega

/-- Every character of a rendered natural is one of the ten digit
characters. -/
theorem natDigits_chars : ∀ n : Nat, ∀ c ∈ natDigits n, ∃ m, m < 10 ∧ c = decDigit m := by
  intro n
  induction n using Nat.strong_induction_on with
  | _ n ih =>
    intro c hc
    by_cases hlt : n < 10
    · rw [natDigits_small hlt] at hc
      simp at hc
      exact ⟨n, hlt, hc⟩
    · have hdiv : n / 10 < n := Nat.div_lt_self (by omega) (by omega)
      rw [natDigits_large (by omega)] at hc
      rcases List.mem_append.mp hc with h | h
      · exact ih (n / 10) hdiv c h
      · simp at h
        exact ⟨n % 10, by omega, h⟩

/-- Folding one more digit onto an accumulated value. -/
theorem digitsVal_append (ds : List Char) (c : Char) :
    digitsVal (ds ++ [c]) = 10 * digitsVal ds + (c.toNat - 48) := by
  unfold digitsVal
  rw [List.foldl_append]
  simp [Nat.mul_comm]

/-- The rendered digits of `n` evaluate back to `n`. -/
theorem digitsVal_natDigits : ∀ n : Nat, digitsVal (natDigits n) = n := by
  intro n
  induction n using Nat.strong_induction_on with
  | _ n ih =>
    by_cases hlt : n < 10
    · rw [natDigits_small hlt]
      have := (decDigit_facts n hlt).2.2.2.2.2.2.2.2.2.2.2.2.2.2.2.2.2.1
      simp [digitsVal, this]
    · have hdiv : n / 10 < n := Nat.div_lt_self (by omega) (by omega)
      rw [natDigits_large (by omega), digitsVal_append, ih (n / 10) hdiv,
        (decDigit_facts (n % 10) (by omega)).2.2.2.2.2.2.2.2.2.2.2.2.2.2.2.2.2.1]
      omega

/-! ### Digit-scanning lemmas -/

/-- The digit scanner consumes exactly a digit run when what follows cannot extend
it. -/
theorem takeDigits_exact : ∀ (ds rest : List Char),
    (∀ c ∈ ds, c.isDigit = true) →
    (∀ c, rest.head? = some c → c.isDigit = false) →
    takeDigits (ds ++ rest) = (ds, rest) := by
  intro ds
  induction ds with
  | nil =>
    intro rest _ hrest
    cases rest with
    | nil => rfl
    | cons c t =>
      have := hrest c rfl
      simp [takeDigits, this]
  | cons d ds ih =>
    intro rest hds hrest
    have hd : d.isDigit = true := hds d (by simp)
    have := ih rest (fun c hc => hds c (by simp [hc])) hrest
    simp [takeDigits, hd, this]

/-- Unpacking `numSafe` at a non-empty remainder. -/
theorem numSafe_cons {r : Char} {t : List Char} (h : numSafe (r :: t) = true) :
    r.isDigit = false ∧ ¬ r = '.' ∧ ¬ r = 'e' ∧ ¬ r = 'E' := by
  have h' : (r.isDigit || r = '.' || r = 'e' || r = 'E') = false := by
    have : numSafe (r :: t) = !(r.isDigit || r = '.' || r = 'e' || r = 'E') := rfl
    rw [this] at h
    cases hb : (r.isDigit || r = '.' || r = 'e' || r = 'E')
    · rfl
    · rw [hb] at h; cases h
  refine ⟨?_, ?_, ?_, ?_⟩
  · cases hb : r.isDigit
    · rfl
    · rw [hb] at h'; simp at h'
  · intro he; rw [he] at h'; simp at h'
  · intro he; rw [he] at h'; simp at h'
  · intro he; rw [he] at h'; simp at h'

/-- A `numSafe` remainder cannot extend a digit run. -/
theorem numSafe_head_not_digit {rest : List Char} (h : numSafe rest = true) :
    ∀ c, rest.head? = some c → c.isDigit = false := by
  intro c hc
  cases rest with
  | nil => cases hc
  | cons r t =>
    injection hc with hc
    subst hc
    exact (numSafe_cons h).1

/-- Parsing an unsigned rendered natural returns the number and the untouched
remainder. -/
theorem parseNatNum_natDigits (n : Nat) (rest : List Char) (hrest : numSafe rest = true) :
    parseNatNum (natDigits n ++ rest) = some (n, rest) := by
  have hchars : ∀ c ∈ natDigits n, c.isDigit = true := by
    intro c hc
    obtain ⟨m, hm, he⟩ := natDigits_chars n c hc
    subst he
    exact (decDigit_facts m hm).1
  have htake : takeDigits (natDigits n ++ rest) = (natDigits n, rest) :=
    takeDigits_exact _ _ hchars (numSafe_head_not_digit hrest)
  obtain ⟨m, t, hm, hnd, hz⟩ := natDigits_head n
  have hzero : (decide (decDigit m = '0') && !t.isEmpty) = false := by
    by_cases h0 : m = 0
    · have hn0 : n = 0 := hz h0
      have h00 : natDigits 0 = [decDigit 0] := natDigits_small (by omega)
      rw [hn0, h00] at hnd
      injection hnd with h1 h2
      subst h2
      simp
    · have hne : ¬ decDigit m = '0' := by
        intro hc
        exact h0 (((decDigit_facts m hm).2.2.2.2.2.2.2.2.2.2.2.2.2.2.2.2.2.2).mp hc)
      simp [hne]
  have hval : digitsVal (decDigit m :: t) = n := by
    rw [← hnd]; exact digitsVal_natDigits n
  unfold parseNatNum
  rw [htake, hnd]
  simp only [hzero, Bool.false_eq_true, if_false]
  cases rest with
  | nil => simp [hval]
  | cons r rt =>
    obtain ⟨h1, h2, h3, h4⟩ := numSafe_cons hrest
    simp [h2, h3, h4, hval]

/-- Parsing a rendered integer (with its optional sign). -/
theorem parseNum_intDigits (i : Int) (rest : List Char) (hrest : numSafe rest = true) :
    parseNum (intDigits i ++ rest) = some (i, rest) := by
  by_cases hneg : i < 0
  · have hi : intDigits i = '-' :: natDigits i.natAbs := by simp [intDigits, hneg]
    rw [hi]
    show parseNum ('-' :: (natDigits i.natAbs ++ rest)) = _
    simp only [parseNum, if_pos, parseNatNum_natDigits i.natAbs rest hrest]
    have hni : -(i.natAbs : Int) = i := by omega
    rw [hni]
  · have hge : 0 ≤ i := by omega
    have hi : intDigits i = natDigits i.toNat := by simp [intDigits, hneg]
    rw [hi]
    obtain ⟨m, t, hm, hnd, _⟩ := natDigits_head i.toNat
    rw [hnd]
    show parseNum (decDigit m :: (t ++ rest)) = _
    have hminus : ¬ decDigit m = '-' := (decDigit_facts m hm).2.2.2.2.2.2.2.2.2.2.2.2.1
    have hstep : parseNum (decDigit m :: (t ++ rest)) =
        match parseNatNum ((decDigit m :: t) ++ rest) with
        | none => none
        | some (n, rem) => some ((n : Int), rem) := by
      simp only [parseNum, if_neg hminus]
      rfl
    rw [hstep, ← hnd, parseNatNum_natDigits i.toNat rest hrest]
    show some ((i.toNat : Int), rest) = some (i, rest)
    rw [Int.toNat_of_nonneg hge]

/-! ### String-literal roundtrip -/

/-- Reading back an escaped string body stops exactly at the closing quote. -/
theorem parseStrBody_escaped : ∀ (s rest : List Char),
    parseStrBody (s.flatMap escChar ++ '"' :: rest) = some (s, rest) := by
  intro s
  induction s with
  | nil =>
    intro rest
    show parseStrBody ('"' :: rest) = some ([], rest)
    rw [parseStrBody.eq_def]
    simp
  | cons c cs ih =>
    intro rest
    show parseStrBody ((escChar c ++ cs.flatMap escChar) ++ '"' :: rest) = _
    by_cases h1 : c = '"'
    · subst h1
      show parseStrBody ('\\' :: '"' :: (cs.flatMap escChar ++ '"' :: rest)) = _
      rw [parseStrBody.eq_def]
      simp [unescChar, ih rest]
    · by_cases h2 : c = '\\'
      · subst h2
        show parseStrBody ('\\' :: '\\' :: (cs.flatMap escChar ++ '"' :: rest)) = _
        rw [parseStrBody.eq_def]
        simp [unescChar, ih rest]
      · by_cases h3 : c = '\n'
        · subst h3
          show parseStrBody ('\\' :: 'n' :: (cs.flatMap escChar ++ '"' :: rest)) = _
          rw [parseStrBody.eq_def]
          simp [unescChar, ih rest]
        · by_cases h4 : c = '\t'
          · subst h4
            show parseStrBody ('\\' :: 't' :: (cs.flatMap escChar ++ '"' :: rest)) = _
            rw [parseStrBody.eq_def]
            simp [unescChar, ih rest]
          · by_cases h5 : c = '\r'
            · subst h5
              show parseStrBody ('\\' :: 'r' :: (cs.flatMap escChar ++ '"' :: rest)) = _
              rw [parseStrBody.eq_def]
              simp [unescChar, ih rest]
            · have he : escChar c = [c] := by simp [escChar, h1, h2, h3, h4, h5]
              rw [he]
              show parseStrBody (c :: (cs.flatMap escChar ++ '"' :: rest)) = _
              rw [parseStrBody.eq_def]
              simp [h1, h2, ih rest]

/-! ### Head shapes of rendered values -/

/-- The facts needed of a rendered value's first character: it exists, is not
blank, and is none of the delimiter characters the parser branches on. -/
abbrev goodHead (c : Char) : Prop :=
  pyIsSpace c = false ∧ c ≠ ']' ∧ c ≠ Char.ofNat 125 ∧ c ≠ ',' ∧ c ≠ ':'

/-- Every rendered value starts with a well-behaved character. -/
theorem printVal_head : ∀ v : JsonValue, ∃ c t, printVal v = c :: t ∧ goodHead c := by
  intro v
  cases v with
  | null => exact ⟨'n', _, rfl, by decide⟩
  | bool b =>
    cases b with
    | true => exact ⟨'t', _, rfl, by decide⟩
    | false => exact ⟨'f', _, rfl, by decide⟩
  | str s => exact ⟨'"', _, rfl, by decide⟩
  | arr xs => exact ⟨'[', _, rfl, by decide⟩
  | obj kvs => exact ⟨Char.ofNat 123, _, rfl, by decide⟩
  | num i =>
    show ∃ c t, intDigits i = c :: t ∧ goodHead c
    by_cases hneg : i < 0
    · refine ⟨'-', natDigits i.natAbs, by simp [intDigits, hneg], ?_⟩
      exact ⟨by decide, by decide, by decide, by decide, by decide⟩
    · obtain ⟨m, t, hm, hnd, _⟩ := natDigits_head i.toNat
      refine ⟨decDigit m, t, by simp [intDigits, hneg, hnd], ?_⟩
      obtain ⟨_, hsp, _, _, _, _, _, hrb, _, hrb2, hcm, hco, _⟩ := decDigit_facts m hm
      exact ⟨hsp, hrb, hrb2, hcm, hco⟩

/-- Blank-skipping does not move past a rendered value. -/
theorem skipBlank_printVal (v : JsonValue) (x : List Char) :
    skipBlank (printVal v ++ x) = printVal v ++ x := by
  obtain ⟨c, t, hv, hsp, _⟩ := printVal_head v
  rw [hv]
  show skipBlank (c :: (t ++ x)) = _
  simp [skipBlank, hsp]

/-- A non-empty element list also starts with a rendered value's head. -/
theorem printElems_cons_head : ∀ (x : JsonValue) (xs : List JsonValue),
    ∃ c t, printElems (x :: xs) = c :: t ∧ goodHead c := by
  intro x xs
  obtain ⟨c, t, hv, hg⟩ := printVal_head x
  cases xs with
  | nil => exact ⟨c, t, by simp [printElems, hv], hg⟩
  | cons y ys =>
    refine ⟨c, t ++ ',' :: ' ' :: printElems (y :: ys), ?_, hg⟩
    show printVal x ++ ',' :: ' ' :: printElems (y :: ys) = _
    rw [hv]
    rfl

/-- Blank-skipping stops at any non-blank head. -/
theorem skipBlank_goodHead {c : Char} (h : pyIsSpace c = false) (t : List Char) :
    skipBlank (c :: t) = c :: t := by
  simp [skipBlank, h]

/-- A non-empty member list renders starting with the key's opening quote. -/
theorem printMembers_cons_head (k : String) (v : JsonValue)
    (ms : List (String × JsonValue)) :
    ∃ T, printMembers ((k, v) :: ms) = '"' :: T := by
  cases ms with
  | nil => exact ⟨_, rfl⟩
  | cons m rest => exact ⟨_, rfl⟩

/-! ### Branch lemmas for the value parser -/

/-- A value whose input head can only start a number dispatches to
`parseNum`. -/
theorem parseVal_num_case (f : Nat) (c : Char) (t : List Char)
    (hsp : pyIsSpace c = false) (hn : ¬ c = 'n') (ht : ¬ c = 't')
    (hf : ¬ c = 'f') (hq : ¬ c = '"') (hbk : ¬ c = '[')
    (hbr : ¬ c = Char.ofNat 123) (hg : (c = '-' || c.isDigit) = true) :
    parseVal (f + 1) (c :: t) =
      match parseNum (c :: t) with
      | none => none
      | some (i, rem) => some (.num i, rem) := by
  rw [parseVal.eq_def]
  rw [skipBlank_goodHead hsp]
  simp [hn, ht, hf, hq, hbk, hbr, hg]

/-- The array branch at a non-empty element list reduces to `parseElems`. -/
theorem parseVal_arr_case (f : Nat) (x : JsonValue) (xs : List JsonValue)
    (rest : List Char) :
    parseVal (f + 1) ('[' :: (printElems (x :: xs) ++ ']' :: rest)) =
      match parseElems f (printElems (x :: xs) ++ ']' :: rest) with
      | none => none
      | some (vs, rem) => some (.arr vs, rem) := by
  obtain ⟨c, t, he, hsp, hrb, _, _, _⟩ := printElems_cons_head x xs
  rw [parseVal.eq_def]
  rw [show skipBlank ('[' :: (printElems (x :: xs) ++ ']' :: rest)) =
    '[' :: (printElems (x :: xs) ++ ']' :: rest) from skipBlank_goodHead (by decide) _]
  simp only [he, List.cons_append]
  rw [skipBlank_goodHead hsp]
  simp [hrb]

/-- The object branch at a non-empty member list reduces to `parseMembers`. -/
theorem parseVal_obj_case (f : Nat) (k : String) (v : JsonValue)
    (ms : List (String × JsonValue)) (rest : List Char) :
    parseVal (f + 1)
        (Char.ofNat 123 :: (printMembers ((k, v) :: ms) ++ Char.ofNat 125 :: rest)) =
      match parseMembers f (printMembers ((k, v) :: ms) ++ Char.ofNat 125 :: rest) with
      | none => none
      | some (kvs, rem) => some (.obj kvs, rem) := by
  obtain ⟨T, hm⟩ := printMembers_cons_head k v ms
  rw [parseVal.eq_def]
  rw [show skipBlank (Char.ofNat 123 :: (printMembers ((k, v) :: ms) ++ Char.ofNat 125 :: rest)) =
    Char.ofNat 123 :: (printMembers ((k, v) :: ms) ++ Char.ofNat 125 :: rest) from
    skipBlank_goodHead (by decide) _]
  have hskip : skipBlank (printMembers ((k, v) :: ms) ++ Char.ofNat 125 :: rest)
      = printMembers ((k, v) :: ms) ++ Char.ofNat 125 :: rest := by
    rw [hm]
    exact skipBlank_goodHead (by decide) _
  simp only [hm, List.cons_append]
  simp only [hm, List.cons_append] at hskip
  simp [hskip]

/-- A comma-headed remainder is number-safe. -/
theorem numSafe_comma (t : List Char) : numSafe (',' :: t) = true := rfl

/-- A bracket-headed remainder is number-safe. -/
theorem numSafe_rbracket (t : List Char) : numSafe (']' :: t) = true := rfl

/-- A brace-headed remainder is number-safe. -/
theorem numSafe_rbrace (t : List Char) : numSafe (Char.ofNat 125 :: t) = true := rfl

/-! ### The parser–printer roundtrip -/

/-- One-step unfolding of `parseElems` at successor fuel (definitional). -/
theorem parseElems_step (f : Nat) (cs : List Char) :
    parseElems (f + 1) cs =
      match parseVal f cs with
      | none => none
      | some (v, r) =>
        match skipBlank r with
        | ',' :: r' =>
          match parseElems f (skipBlank r') with
          | none => none
          | some (vs, rem) => some (v :: vs, rem)
        | ']' :: rem => some ([v], rem)
        | _ => none := rfl

/-- One-step unfolding of `parseMembers` at successor fuel (definitional). -/
theorem parseMembers_step (f : Nat) (cs : List Char) :
    parseMembers (f + 1) cs =
      match skipBlank cs with
      | '"' :: r =>
        match parseStrBody r with
        | none => none
        | some (key, r1) =>
          match skipBlank r1 with
          | ':' :: r2 =>
            match parseVal f (skipBlank r2) with
            | none => none
            | some (v, r3) =>
              match skipBlank r3 with
              | ',' :: r4 =>
                match parseMembers f (skipBlank r4) with
                | none => none
                | some (kvs, rem) => some ((String.mk key, v) :: kvs, rem)
              | c :: r4 =>
                if c = Char.ofNat 125 then some ([(String.mk key, v)], r4)
                else none
              | [] => none
          | _ => none
      | _ => none := rfl

mutual

/-- Parsing a rendered value consumes exactly its characters. -/
theorem rt_val : ∀ (v : JsonValue) (f : Nat) (rest : List Char),
    (printVal v).length < f → numSafe rest = true →
    parseVal f (printVal v ++ rest) = some (v, rest)
  | .null, f, rest, hf, _ => by
    cases f with
    | zero => exact absurd hf (Nat.not_lt_zero _)
    | succ f =>
      show parseVal (f + 1) (['n', 'u', 'l', 'l'] ++ rest) = _
      rw [parseVal.eq_def]
      simp [skipBlank, pyIsSpace]
  | .bool true, f, rest, hf, _ => by
    cases f with
    | zero => exact absurd hf (Nat.not_lt_zero _)
    | succ f =>
      show parseVal (f + 1) (['t', 'r', 'u', 'e'] ++ rest) = _
      rw [parseVal.eq_def]
      simp [skipBlank, pyIsSpace]
  | .bool false, f, rest, hf, _ => by
    cases f with
    | zero => exact absurd hf (Nat.not_lt_zero _)
    | succ f =>
      show parseVal (f + 1) (['f', 'a', 'l', 's', 'e'] ++ rest) = _
      rw [parseVal.eq_def]
      simp [skipBlank, pyIsSpace]
  | .num i, f, rest, hf, hrest => by
    cases f with
    | zero => exact absurd hf (Nat.not_lt_zero _)
    | succ f =>
      show parseVal (f + 1) (intDigits i ++ rest) = _
      by_cases hneg : i < 0
      · have hi : intDigits i = '-' :: natDigits i.natAbs := by simp [intDigits, hneg]
        have harg : intDigits i ++ rest = '-' :: (natDigits i.natAbs ++ rest) := by
          rw [hi]; rfl
        rw [harg, parseVal_num_case f '-' _ (by decide) (by decide) (by decide)
          (by decide) (by decide) (by decide) (by decide) (by decide),
          ← harg, parseNum_intDigits i rest hrest]
      · obtain ⟨m, t, hm, hnd, _⟩ := natDigits_head i.toNat
        have hi : intDigits i = decDigit m :: t := by simp [intDigits, hneg, hnd]
        obtain ⟨hdig, hsp, hn, ht', hf', hq, hbk, _, hbr, _, _, _, _, _, _, _, _, _, _⟩ :=
          decDigit_facts m hm
        have harg : intDigits i ++ rest = decDigit m :: (t ++ rest) := by
          rw [hi]; rfl
        rw [harg, parseVal_num_case f _ _ hsp hn ht' hf' hq hbk hbr (by simp [hdig]),
          ← harg, parseNum_intDigits i rest hrest]
  | .str s, f, rest, hf, _ => by
    cases f with
    | zero => exact absurd hf (Nat.not_lt_zero _)
    | succ f =>
      obtain ⟨d⟩ := s
      have harg : printVal (.str (String.mk d)) ++ rest
          = '"' :: (d.flatMap escChar ++ '"' :: rest) := by
        show ('"' :: (d.flatMap escChar ++ ['"'])) ++ rest = _
        simp
      rw [harg, parseVal.eq_def]
      simp [skipBlank, pyIsSpace, parseStrBody_escaped d rest]
  | .arr [], f, rest, hf, _ => by
    cases f with
    | zero => exact absurd hf (Nat.not_lt_zero _)
    | succ f =>
      have harg : printVal (.arr []) ++ rest = '[' :: ']' :: rest := by
        show ('[' :: (printElems [] ++ [']'])) ++ rest = _
        simp [printElems]
      rw [harg, parseVal.eq_def]
      simp [skipBlank, pyIsSpace]
  | .arr (x :: xs), f, rest, hf, _ => by
    cases f with
    | zero => exact absurd hf (Nat.not_lt_zero _)
    | succ f =>
      have harg : printVal (.arr (x :: xs)) ++ rest
          = '[' :: (printElems (x :: xs) ++ ']' :: rest) := by
        show ('[' :: (printElems (x :: xs) ++ [']'])) ++ rest = _
        simp
      have hlen : (printVal (.arr (x :: xs))).length = (printElems (x :: xs)).length + 2 := by
        show ('[' :: (printElems (x :: xs) ++ [']'])).length = _
        simp
      have hfe : (printElems (x :: xs)).length + 1 < f := by omega
      rw [harg, parseVal_arr_case f x xs rest, rt_elems x xs f rest hfe]
  | .obj [], f, rest, hf, _ => by
    cases f with
    | zero => exact absurd hf (Nat.not_lt_zero _)
    | succ f =>
      have harg : printVal (.obj []) ++ rest
          = Char.ofNat 123 :: Char.ofNat 125 :: rest := by
        show (Char.ofNat 123 :: (printMembers [] ++ [Char.ofNat 125])) ++ rest = _
        simp [printMembers]
      rw [harg, parseVal.eq_def]
      simp [skipBlank, pyIsSpace]
  | .obj ((k, v) :: ms), f, rest, hf, _ => by
    cases f with
    | zero => exact absurd hf (Nat.not_lt_zero _)
    | succ f =>
      have harg : printVal (.obj ((k, v) :: ms)) ++ rest
          = Char.ofNat 123 :: (printMembers ((k, v) :: ms) ++ Char.ofNat 125 :: rest) := by
        show (Char.ofNat 123 :: (printMembers ((k, v) :: ms) ++ [Char.ofNat 125])) ++ rest = _
        simp
      have hlen : (printVal (.obj ((k, v) :: ms))).length
          = (printMembers ((k, v) :: ms)).length + 2 := by
        show (Char.ofNat 123 :: (printMembers ((k, v) :: ms) ++ [Char.ofNat 125])).length = _
        simp
      have hfm : (printMembers ((k, v) :: ms)).length + 1 < f := by omega
      rw [harg, parseVal_obj_case f k v ms rest, rt_members k v ms f rest hfm]
termination_by v _ _ _ _ => sizeOf v

/-- Parsing rendered elements up to the closing bracket recovers the list. -/
theorem rt_elems : ∀ (x : JsonValue) (xs : List JsonValue) (f : Nat) (rest : List Char),
    (printElems (x :: xs)).length + 1 < f →
    parseElems f (printElems (x :: xs) ++ ']' :: rest) = some (x :: xs, rest)
  | x, [], f, rest, hf => by
    cases f with
    | zero => exact absurd hf (Nat.not_lt_zero _)
    | succ f =>
      have h1 : printElems [x] = printVal x := rfl
      have hfe : (printVal x).length < f := by
        rw [h1] at hf; omega
      have hv := rt_val x f (']' :: rest) hfe (numSafe_rbracket rest)
      rw [parseElems_step, h1, hv]
      simp [skipBlank, pyIsSpace]
  | x, y :: ys, f, rest, hf => by
    cases f with
    | zero => exact absurd hf (Nat.not_lt_zero _)
    | succ f =>
      have h1 : printElems (x :: y :: ys) = printVal x ++ ',' :: ' ' :: printElems (y :: ys) := rfl
      have hlen : (printElems (x :: y :: ys)).length
          = (printVal x).length + 2 + (printElems (y :: ys)).length := by
        rw [h1]; simp; omega
      have hfx : (printVal x).length < f := by omega
      have hfy : (printElems (y :: ys)).length + 1 < f := by omega
      have harg : printElems (x :: y :: ys) ++ ']' :: rest
          = printVal x ++ ',' :: ' ' :: (printElems (y :: ys) ++ ']' :: rest) := by
        rw [h1]; simp
      have hv := rt_val x f (',' :: ' ' :: (printElems (y :: ys) ++ ']' :: rest)) hfx
        (numSafe_comma _)
      obtain ⟨c, t, he, hsp, _⟩ := printElems_cons_head y ys
      have hskip : skipBlank (printElems (y :: ys) ++ ']' :: rest)
          = printElems (y :: ys) ++ ']' :: rest := by
        rw [he]
        exact skipBlank_goodHead hsp _
      rw [parseElems_step, harg, hv]
      have htail := rt_elems y ys f rest hfy
      simp [skipBlank, pyIsSpace, hskip, htail]
termination_by x xs _ _ _ => sizeOf x + sizeOf xs

/-- Parsing rendered members up to the closing brace recovers the list. -/
theorem rt_members : ∀ (k : String) (v : JsonValue) (ms : List (String × JsonValue))
    (f : Nat) (rest : List Char),
    (printMembers ((k, v) :: ms)).length + 1 < f →
    parseMembers f (printMembers ((k, v) :: ms) ++ Char.ofNat 125 :: rest)
      = some ((k, v) :: ms, rest)
  | k, v, [], f, rest, hf => by
    cases f with
    | zero => exact absurd hf (Nat.not_lt_zero _)
    | succ f =>
      obtain ⟨kd⟩ := k
      have h1 : printMembers [(String.mk kd, v)]
          = printStr (String.mk kd) ++ ':' :: ' ' :: printVal v := rfl
      have hlen : (printMembers [(String.mk kd, v)]).length
          = (printStr (String.mk kd)).length + 2 + (printVal v).length := by
        rw [h1]; simp; omega
      have hfv : (printVal v).length < f := by omega
      have hv := rt_val v f (Char.ofNat 125 :: rest) hfv (numSafe_rbrace rest)
      have harg : printMembers [(String.mk kd, v)] ++ Char.ofNat 125 :: rest
          = '"' :: (kd.flatMap escChar ++ '"' ::
              (':' :: ' ' :: (printVal v ++ Char.ofNat 125 :: rest))) := by
        rw [h1]
        show (('"' :: (kd.flatMap escChar ++ ['"'])) ++ ':' :: ' ' :: printVal v) ++
            Char.ofNat 125 :: rest = _
        simp
      rw [parseMembers_step, harg]
      simp [skipBlank, pyIsSpace, parseStrBody_escaped kd, skipBlank_printVal v, hv]
  | k, v, (k', v') :: ms, f, rest, hf => by
    cases f with
    | zero => exact absurd hf (Nat.not_lt_zero _)
    | succ f =>
      obtain ⟨kd⟩ := k
      have h1 : printMembers ((String.mk kd, v) :: (k', v') :: ms)
          = printStr (String.mk kd) ++ ':' :: ' ' ::
            (printVal v ++ ',' :: ' ' :: printMembers ((k', v') :: ms)) := by
        show printStr (String.mk kd) ++ ':' :: ' ' :: printVal v ++ ',' :: ' ' ::
            printMembers ((k', v') :: ms) = _
        simp
      have hlen : (printMembers ((String.mk kd, v) :: (k', v') :: ms)).length
          = (printStr (String.mk kd)).length + 4 + (printVal v).length
            + (printMembers ((k', v') :: ms)).length := by
        rw [h1]; simp; omega
      have hfv : (printVal v).length < f := by omega
      have hfm : (printMembers ((k', v') :: ms)).length + 1 < f := by omega
      have hv := rt_val v f
        (',' :: ' ' :: (printMembers ((k', v') :: ms) ++ Char.ofNat 125 :: rest)) hfv
        (numSafe_comma _)
      obtain ⟨T, hT⟩ := printMembers_cons_head k' v' ms
      have hskip : skipBlank (printMembers ((k', v') :: ms) ++ Char.ofNat 125 :: rest)
          = printMembers ((k', v') :: ms) ++ Char.ofNat 125 :: rest := by
        rw [hT]
        exact skipBlank_goodHead (by decide) _
      have harg : printMembers ((String.mk kd, v) :: (k', v') :: ms) ++ Char.ofNat 125 :: rest
          = '"' :: (kd.flatMap escChar ++ '"' ::
              (':' :: ' ' :: (printVal v ++ ',' :: ' ' ::
                (printMembers ((k', v') :: ms) ++ Char.ofNat 125 :: rest)))) := by
        rw [h1]
        show (('"' :: (kd.flatMap escChar ++ ['"'])) ++ ':' :: ' ' ::
            (printVal v ++ ',' :: ' ' :: printMembers ((k', v') :: ms))) ++
            Char.ofNat 125 :: rest = _
        simp
      have htail := rt_members k' v' ms f rest hfm
      rw [parseMembers_step, harg]
      simp [skipBlank, pyIsSpace, parseStrBody_escaped kd, skipBlank_printVal v, hv,
        hskip, htail]
termination_by k v ms _ _ _ => sizeOf v + sizeOf ms

end

/-- The parser inverts the printer: `json.loads` after `json.dumps`. -/
theorem json_loads_dumps (v : JsonValue) : json_loads (json_dumps v) = some v := by
  unfold json_loads json_dumps
  have hdata : (String.mk (printVal v)).data = printVal v := rfl
  rw [hdata]
  have hv := rt_val v ((printVal v).length + 1) [] (by omega) rfl
  rw [List.append_nil] at hv
  rw [hv]
  rfl

/-! ### C1 — the Semantic Guard's test vectors -/

/-- Counterexample to C1 as stated: on the fourth vector the code *accepts*
`https://notgoogle.com` for intent `open google`, because the substring test
finds `google.com` inside `notgoogle.com`; the claim demanded `false`. -/
theorem C1_counterexample :
    semantic_url_check "open google" "https://notgoogle.com" = true := by decide

/-- C1 (amended): `semantic_url_check` is a pure function of `(intent, url)`
and on the spec's four vectors returns `false`, `true`, `true` — and `true`
(not `false`) on the fourth, since `"google.com"` occurs inside
`"notgoogle.com"`. -/
theorem C1_guard_vectors :
    semantic_url_check "open youtube" "https://vimeo.com/x" = false ∧
    semantic_url_check "open youtube" "https://youtube.com/watch?v=1" = true ∧
    semantic_url_check "search recipes" "https://anything.example" = true ∧
    semantic_url_check "open google" "https://notgoogle.com" = true := by
  decide

/-! ### C5 — the structured-output extractor's contract -/

/-- Counterexample to C5 as stated: `"a [1] b [2] c"` embeds the valid JSON
array `[1]`, yet `extract_json` raises the no-JSON error, because the greedy
span runs from the first `[` to the last `]` and that span does not parse.
The function does not return "the first syntactically valid JSON value
embedded" in the text, nor "the first balanced array literal". -/
theorem C5_counterexample :
    extract_json "a [1] b [2] c" = .error (noJsonMsg "a [1] b [2] c") ∧
    json_loads "[1]" = some (.arr [.num 1]) ∧
    strContains "a [1] b [2] c" "[1]" = true ∧
    greedySpan '[' ']' "a [1] b [2] c" = some "[1] b [2]" := by
  refine ⟨by rfl, by rfl, by decide, by rfl⟩

/-- C5 (amended): `extract_json` returns the parse of the first parseable
candidate among (a) the first fenced code block, (b) the single greedy span
from the first `[` to the last `]`, (c) the single greedy span from the first
brace to the last brace, a parse failure on one candidate falling through to
the next; when no candidate parses it fails with the single documented error
carrying the first 300 characters of the text, and (being a total function)
it raises nothing else.  It does not, in general, return the first valid JSON
value embedded in the text. -/
theorem C5_extractor_contract : ∀ t : String, extract_json t = extract_json_spec t := by
  intro t
  unfold extract_json extract_json_spec candidateTexts
  cases h1 : (fencedCandidate t).bind json_loads <;>
    cases h2 : (greedySpan '[' ']' t).bind json_loads <;>
      cases h3 : (greedySpan (Char.ofNat 123) (Char.ofNat 125) t).bind json_loads <;>
        simp [h1, h2, h3]

/-! ### C3 — plans recorded by `plan_generation` -/

/-- Counterexample to C3 as stated: the response `"[]"` parses to the empty
JSON array, and `plan_generation` records the empty plan — not a non-empty
one. -/
theorem C3_counterexample :
    extract_json "[]" = .ok (.arr []) ∧
    (plan_generation "[]" (initState "u")).plan = [] := by
  exact ⟨rfl, rfl⟩

/-- C3 (amended): when the model response fails to parse, the recorded plan is
exactly one step whose action is the generic search tool applied to the raw
user text; when the response parses to anything other than the empty JSON
array, the recorded plan is non-empty.  (A response parsing to `[]` yields the
empty plan.) -/
theorem C3_plan_fallback : ∀ (resp : String) (s : AgentState),
    (∀ e, extract_json resp = .error e →
      (plan_generation resp s).plan = fallback_plan s.user_input ∧
      ∃ kvs, fallback_plan s.user_input = [.obj kvs] ∧
        jlookup "action" kvs = some (.str "search_web") ∧
        jlookup "input" kvs = some (.str s.user_input)) ∧
    (∀ v, extract_json resp = .ok v → v ≠ .arr [] →
      (plan_generation resp s).plan ≠ []) := by
  intro resp s
  constructor
  · intro e he
    refine ⟨?_, ?_⟩
    · simp [plan_generation, planOf, he]
    · exact ⟨_, rfl, rfl, rfl⟩
  · intro v hv hne
    cases v with
    | arr xs =>
      cases xs with
      | nil => exact absurd rfl hne
      | cons y ys => simp [plan_generation, planOf, hv]
    | null => simp [plan_generation, planOf, hv]
    | bool b => simp [plan_generation, planOf, hv]
    | num n => simp [plan_generation, planOf, hv]
    | str t => simp [plan_generation, planOf, hv]
    | obj kvs => simp [plan_generation, planOf, hv]

/-- Witness for C3: the unparseable response `"nope"` yields the single
`search_web` fallback step, and the parseable response `"[1]"` yields a
non-empty plan. -/
theorem C3_witness :
    (plan_generation "nope" (initState "oi")).plan = fallback_plan "oi" ∧
    (plan_generation "[1]" (initState "oi")).plan ≠ [] := by
  constructor
  · exact ((C3_plan_fallback "nope" (initState "oi")).1 (noJsonMsg "nope") (by rfl)).1
  · exact (C3_plan_fallback "[1]" (initState "oi")).2 (.arr [.num 1]) (by rfl)
      (by intro h; injection h with h'; cases h')

/-! ### C4 — the validation fallback verdict -/

/-- Counterexample to C4 as stated: the claim's keyword set says `blocked`,
but the code scans for the Portuguese `bloqueada` (plus `erro`); on the last
result `"navigation blocked"` the claim predicts `success = false` while the
fallback verdict records `success = true`. -/
theorem C4_counterexample :
    spec_has_error "navigation blocked" = true ∧
    code_has_error "navigation blocked" = false ∧
    (validation none blockedWordState)._validation =
      .obj [("success", .bool true), ("can_continue", .bool true),
            ("notes", .str ""), ("extracted_info", .str "")] := by
  refine ⟨by decide, by decide, by rfl⟩

/-- C4 (amended): whenever the validation model call raises or its extraction
fails, `validation` never raises and records the deterministic fallback
verdict — `success` is the negation of `has_error`, where `has_error` holds
iff the last result contains (case-insensitively) one of the code's fixed
keywords `erro`, `error`, `exception`, `not found`, `timeout`, `bloqueada`
(Portuguese `bloqueada`, not English `blocked`); `can_continue` is
`current_step < len(plan)`; notes and extracted info are empty strings. -/
theorem C4_validation_fallback : ∀ (s : AgentState) (oracle : Option String),
    (oracle = none ∨ ∃ r e, oracle = some r ∧ extract_json r = .error e) →
    validation oracle s = { s with _validation := fallback_verdict s } ∧
    fallback_verdict s =
      .obj [("success", .bool (!code_has_error s.last_result)),
            ("can_continue", .bool (decide (s.current_step < s.plan.length))),
            ("notes", .str ""), ("extracted_info", .str "")] := by
  intro s oracle h
  refine ⟨?_, rfl⟩
  rcases h with h | ⟨r, e, hr, he⟩
  · subst h; rfl
  · subst hr; simp [validation, he]

/-- Witness for C4: a raised model call at a concrete state records exactly
the fallback verdict. -/
theorem C4_witness :
    validation none blockedWordState =
      { blockedWordState with _validation := fallback_verdict blockedWordState } ∧
    fallback_verdict blockedWordState =
      .obj [("success", .bool (!code_has_error blockedWordState.last_result)),
            ("can_continue",
             .bool (decide (blockedWordState.current_step < blockedWordState.plan.length))),
            ("notes", .str ""), ("extracted_info", .str "")] :=
  C4_validation_fallback blockedWordState none (Or.inl rfl)

/-! ### C2 — the routing rule -/

/-- C2: the router selects `"completion"` whenever the cursor has reached the
plan length, regardless of the stored verdict; otherwise — for a stored
verdict of the documented record shape — it selects `"completion"` exactly
when its `can_continue` flag is `false`, and `"tool_execution"` when the flag
is `true` or absent. -/
theorem C2_routing : ∀ s : AgentState,
    (s.plan.length ≤ s.current_step → should_continue s = .ok "completion") ∧
    (s.current_step < s.plan.length →
      ∀ kvs, s._validation = .obj kvs →
        (jlookup "can_continue" kvs = some (.bool false) →
          should_continue s = .ok "completion") ∧
        (jlookup "can_continue" kvs = none →
          should_continue s = .ok "tool_execution") ∧
        (jlookup "can_continue" kvs = some (.bool true) →
          should_continue s = .ok "tool_execution")) := by
  intro s
  constructor
  · intro h
    unfold should_continue
    simp [Nat.le_of_lt, h]
  · intro h kvs hv
    have hlt : ¬ s.plan.length ≤ s.current_step := by omega
    refine ⟨?_, ?_, ?_⟩ <;> intro hc <;>
      simp [should_continue, hlt, hv, hc, pyTruthy]

/-- Witness for C2: at a state whose cursor is inside the plan and whose
stored verdict lacks the flag, the router loops back to `"tool_execution"`;
past the plan it completes. -/
theorem C2_witness :
    should_continue loopState = .ok "tool_execution" ∧
    should_continue (initState "u") = .ok "completion" := by
  constructor
  · exact (((C2_routing loopState).2 (by decide) [] rfl).2.1) rfl
  · exact (C2_routing (initState "u")).1 (by decide)

/-! ### C6 — blocked navigation -/

/-- C6: when the current step is an `open_url` record whose plain-string URL
the Semantic Guard rejects, the executor leaves the capability uninvoked (its
output does not depend on the tool oracle at all), records the blocked-marker
result embedding both the URL and the intent, appends exactly that outcome to
the history, and advances the cursor by one. -/
theorem C6_blocked_navigation :
    ∀ (s : AgentState) (kvs : List (String × JsonValue)) (u : String),
    s.plan.get? s.current_step = some (.obj kvs) →
    jlookup "action" kvs = some (.str "open_url") →
    jlookup "input" kvs = some (.str u) →
    semantic_url_check s.intent u = false →
    ∃ s', (∀ invoke : ToolOracle, tool_execution invoke s = .ok s') ∧
      s'.last_result = blocked_msg u s.intent ∧
      strContains s'.last_result u = true ∧
      strContains s'.last_result s.intent = true ∧
      s'.current_step = s.current_step + 1 ∧
      s'.results_history = s.results_history ++
        [{ step := s.current_step + 1, action := .str "open_url",
           input := .str u, result := blocked_msg u s.intent,
           description := (jlookup "description" kvs).getD (.str "open_url") }] := by
  intro s kvs u hstep haction hinput hguard
  have hlt : s.current_step < s.plan.length := by
    have := List.get?_eq_some.mp hstep
    exact this.1
  have hnlt : ¬ s.current_step ≥ s.plan.length := by omega
  refine ⟨{ s with
      last_result := blocked_msg u s.intent
      current_step := s.current_step + 1
      results_history := s.results_history ++
        [{ step := s.current_step + 1, action := .str "open_url",
           input := .str u, result := blocked_msg u s.intent,
           description := (jlookup "description" kvs).getD (.str "open_url") }] },
    fun invoke => ?_, rfl, ?_, ?_, rfl, rfl⟩
  · unfold tool_execution
    have hdisp : dispatchResult invoke s.intent (.str "open_url") (.str u) =
        blocked_msg u s.intent := by
      simp [dispatchResult, toolFound, TOOL_NAMES, hguard]
    simp only [hnlt, if_false, hstep, haction, hinput, Option.getD, hdisp]
  · show strContains (blocked_msg u s.intent) u = true
    unfold blocked_msg
    have h1 : "⚠️ URL \x27" ++ u ++ "\x27 foi BLOQUEADA por violar restrição semântica. " ++
        "A intenção é \x27" ++ s.intent ++ "\x27 e esta URL não corresponde ao domínio esperado."
        = "⚠️ URL \x27" ++ (u ++ ("\x27 foi BLOQUEADA por violar restrição semântica. " ++
          "A intenção é \x27" ++ s.intent ++ "\x27 e esta URL não corresponde ao domínio esperado.")) := by
      simp [String.append_assoc]
    rw [h1]
    exact strContains_middle _ _ _
  · show strContains (blocked_msg u s.intent) s.intent = true
    unfold blocked_msg
    have h1 : "⚠️ URL \x27" ++ u ++ "\x27 foi BLOQUEADA por violar restrição semântica. " ++
        "A intenção é \x27" ++ s.intent ++ "\x27 e esta URL não corresponde ao domínio esperado."
        = ("⚠️ URL \x27" ++ u ++ "\x27 foi BLOQUEADA por violar restrição semântica. " ++
          "A intenção é \x27") ++ (s.intent ++ "\x27 e esta URL não corresponde ao domínio esperado.") := by
      simp [String.append_assoc]
    rw [h1]
    exact strContains_middle _ _ _

/-- Witness for C6: the guard rejects `https://youtube-mirror.net` for intent
`abrir youtube`; the executor blocks without touching the capability. -/
theorem C6_witness :
    ∃ s', (∀ invoke : ToolOracle, tool_execution invoke mirrorState = .ok s') ∧
      s'.last_result = blocked_msg "https://youtube-mirror.net" mirrorState.intent ∧
      strContains s'.last_result "https://youtube-mirror.net" = true ∧
      strContains s'.last_result mirrorState.intent = true ∧
      s'.current_step = mirrorState.current_step + 1 ∧
      s'.results_history = mirrorState.results_history ++
        [{ step := mirrorState.current_step + 1, action := .str "open_url",
           input := .str "https://youtube-mirror.net",
           result := blocked_msg "https://youtube-mirror.net" mirrorState.intent,
           description := (jlookup "description"
             [("step", JsonValue.num 1), ("action", JsonValue.str "open_url"),
              ("input", JsonValue.str "https://youtube-mirror.net")]).getD (.str "open_url") }] :=
  C6_blocked_navigation mirrorState _ "https://youtube-mirror.net"
    (by rfl) (by rfl) (by rfl) (by decide)

/-! ### C8 — unknown tool names fail softly -/

/-- C8: when the current step's action name is a string absent from the Tool
Registry, the executor does not raise: it records the "tool not found" text
(mentioning the name), advances the cursor by one, appends one history entry,
and — by the graph's unconditional executor→validator edge — the run proceeds
to validation. -/
theorem C8_unknown_tool :
    ∀ (s : AgentState) (kvs : List (String × JsonValue)) (a : String),
    s.plan.get? s.current_step = some (.obj kvs) →
    jlookup "action" kvs = some (.str a) →
    TOOL_NAMES.contains a = false →
    ∃ s', (∀ invoke : ToolOracle, tool_execution invoke s = .ok s') ∧
      s'.last_result = tool_missing_msg (.str a) ∧
      strContains s'.last_result a = true ∧
      s'.current_step = s.current_step + 1 ∧
      s'.results_history.length = s.results_history.length + 1 ∧
      (Reachable .tool_execution s → Reachable .validation s') := by
  intro s kvs a hstep haction hmiss
  have hlt : s.current_step < s.plan.length := (List.get?_eq_some.mp hstep).1
  have hnlt : ¬ s.current_step ≥ s.plan.length := by omega
  have hdisp : ∀ invoke inp, dispatchResult invoke s.intent (.str a) inp =
      tool_missing_msg (.str a) := by
    intro invoke inp
    have hnf : toolFound (.str a) = false := hmiss
    simp [dispatchResult, hnf]
  have hexec : ∀ invoke : ToolOracle, tool_execution invoke s = .ok { s with
      last_result := tool_missing_msg (.str a)
      current_step := s.current_step + 1
      results_history := s.results_history ++
        [{ step := s.current_step + 1, action := .str a,
           input := (jlookup "input" kvs).getD (.str ""),
           result := tool_missing_msg (.str a),
           description := (jlookup "description" kvs).getD (.str a) }] } := by
    intro invoke
    unfold tool_execution
    simp only [hnlt, if_false, hstep, haction, Option.getD, hdisp]
  refine ⟨_, hexec, rfl, ?_, rfl, by simp, fun hr => Reachable.te (fun _ _ => .ok "") hr (hexec _)⟩
  · show strContains (tool_missing_msg (.str a)) a = true
    unfold tool_missing_msg pyStr
    have h1 : "Tool \x27" ++ a ++ "\x27 não encontrada."
        = "Tool \x27" ++ (a ++ "\x27 não encontrada.") := by
      simp [String.append_assoc]
    rw [h1]
    exact strContains_middle _ _ _

/-- Witness for C8: an actual run reaches a plan whose only step names the
unknown tool `teleport`; the executor records the miss, advances, and hands
over to validation. -/
theorem C8_witness :
    ∃ s', (∀ invoke : ToolOracle, tool_execution invoke teleportState = .ok s') ∧
      s'.last_result = tool_missing_msg (.str "teleport") ∧
      strContains s'.last_result "teleport" = true ∧
      s'.current_step = teleportState.current_step + 1 ∧
      s'.results_history.length = teleportState.results_history.length + 1 ∧
      (Reachable .tool_execution teleportState → Reachable .validation s') :=
  C8_unknown_tool teleportState _ "teleport" (by rfl) (by rfl) (by rfl)

/-! ### C10 — non-record plan entries crash the executor -/

/-- C10: `tool_execution` is total only over record-shaped plan entries.  The
response `"```json\n5\n```"` makes `plan_generation` wrap the bare scalar `5`
into the one-entry plan `[5]` on an actual run, and on that reachable state
the executor raises (`AttributeError` from `step.get` on a non-dict, which
happens before its `try` block) instead of recording an outcome. -/
theorem C10_nonrecord_step_raises : ∀ (u : String) (invoke : ToolOracle),
    (plan_generation "```json\n5\n```" (intent_analysis "x" (initState u))).plan
      = [.num 5] ∧
    Reachable .tool_execution
      (plan_generation "```json\n5\n```" (intent_analysis "x" (initState u))) ∧
    tool_execution invoke
      (plan_generation "```json\n5\n```" (intent_analysis "x" (initState u)))
      = .error .attributeError := by
  intro u invoke
  refine ⟨rfl, ?_, rfl⟩
  exact Reachable.pg _ (Reachable.ia _ (Reachable.start u))

/-! ### C7 — the session-state invariant -/

/-- Effect of a successful executor run on the invariant-relevant fields:
the plan and the final answer are untouched; the cursor/history pair is either
untouched (past-the-end stamp) or advanced together by exactly one. -/
theorem tool_execution_effect {invoke : ToolOracle} {s s' : AgentState}
    (h : tool_execution invoke s = .ok s') :
    s'.plan = s.plan ∧ s'.final_answer = s.final_answer ∧
      ((s'.current_step = s.current_step ∧ s'.results_history = s.results_history) ∨
       (s.current_step < s.plan.length ∧ s'.current_step = s.current_step + 1 ∧
        s'.results_history.length = s.results_history.length + 1)) := by
  unfold tool_execution at h
  by_cases hge : s.current_step ≥ s.plan.length
  · simp only [hge, if_true] at h
    cases h
    exact ⟨rfl, rfl, Or.inl ⟨rfl, rfl⟩⟩
  · simp only [hge, if_false] at h
    rcases hstep : s.plan.get? s.current_step with _ | v
    · rw [hstep] at h; cases h
    · rw [hstep] at h
      cases v with
      | obj kvs =>
        simp only at h
        cases h
        refine ⟨rfl, rfl, Or.inr ⟨by omega, rfl, by simp⟩⟩
      | null => cases h
      | bool b => cases h
      | num n => cases h
      | str t => cases h
      | arr xs => cases h

/-- The reachability invariant, proven by induction over the step relation:
the cursor never exceeds the plan length, the history length always equals
the cursor, and the final answer stays empty before the terminal state. -/
theorem reachable_invariant : ∀ {n : Node} {s : AgentState}, Reachable n s →
    s.current_step ≤ s.plan.length ∧
    s.results_history.length = s.current_step ∧
    (n ≠ .terminal → s.final_answer = "") := by
  intro n s h
  induction h with
  | start u => exact ⟨Nat.le_refl 0, rfl, fun _ => rfl⟩
  | ia resp _ ih => exact ⟨ih.1, ih.2.1, fun _ => ih.2.2 (by decide)⟩
  | pg resp _ ih =>
    refine ⟨by simp [plan_generation], by simp [plan_generation], ?_⟩
    intro _
    show (plan_generation resp _).final_answer = ""
    simp [plan_generation]
    exact ih.2.2 (by decide)
  | te invoke _ hok ih =>
    obtain ⟨hplan, hfinal, hrest⟩ := tool_execution_effect hok
    rcases hrest with ⟨hc, hh⟩ | ⟨hlt, hc, hh⟩
    · exact ⟨by rw [hc, hplan]; exact ih.1, by rw [hh, hc]; exact ih.2.1,
        fun _ => by rw [hfinal]; exact ih.2.2 (by decide)⟩
    · exact ⟨by rw [hc, hplan]; omega, by rw [hh, hc, ih.2.1],
        fun _ => by rw [hfinal]; exact ih.2.2 (by decide)⟩
  | loop oracle _ _ ih =>
    exact ⟨ih.1, ih.2.1, fun _ => ih.2.2 (by decide)⟩
  | finish oracle _ _ ih =>
    exact ⟨ih.1, ih.2.1, fun _ => ih.2.2 (by decide)⟩
  | done oracle _ ih =>
    exact ⟨ih.1, ih.2.1, fun hne => absurd rfl hne⟩

/-- C7: in every state reachable by the graph's step relation, the cursor
never exceeds the plan length; once execution has started the history length
equals the cursor (indeed it does in every reachable state); each in-range
executor invocation advances the cursor by exactly one and appends exactly
one history entry; and the final answer stays empty until `completion` runs
— only the terminal transition sets it. -/
theorem C7_state_invariant :
    (∀ (n : Node) (s : AgentState), Reachable n s →
      s.current_step ≤ s.plan.length ∧
      (execStarted n = true → s.results_history.length = s.current_step) ∧
      (n ≠ .terminal → s.final_answer = "")) ∧
    (∀ (invoke : ToolOracle) (s s' : AgentState),
      s.current_step < s.plan.length → tool_execution invoke s = .ok s' →
      s'.current_step = s.current_step + 1 ∧
      s'.results_history.length = s.results_history.length + 1) := by
  constructor
  · intro n s h
    obtain ⟨h1, h2, h3⟩ := reachable_invariant h
    exact ⟨h1, fun _ => h2, h3⟩
  · intro invoke s s' hlt hok
    obtain ⟨_, _, hrest⟩ := tool_execution_effect hok
    rcases hrest with ⟨hc, hh⟩ | ⟨_, hc, hh⟩
    · -- the past-the-end branch contradicts `hlt` only through the code path;
      -- recover the advance by re-running the executor's definition
      exfalso
      unfold tool_execution at hok
      have hnge : ¬ s.current_step ≥ s.plan.length := by omega
      simp only [hnge, if_false] at hok
      rcases hstep : s.plan.get? s.current_step with _ | v
      · rw [hstep] at hok; cases hok
      · rw [hstep] at hok
        cases v with
        | obj kvs =>
          simp only at hok
          cases hok
          simp at hc
        | null => cases hok
        | bool b => cases hok
        | num m => cases hok
        | str t => cases hok
        | arr xs => cases hok
    · exact ⟨hc, hh⟩

/-- Witness for C7: the initial control state satisfies the invariant, and a
concrete in-range executor step advances cursor and history together. -/
theorem C7_witness :
    ((initState "oi").current_step ≤ (initState "oi").plan.length ∧
      (execStarted .intent_analysis = true →
        (initState "oi").results_history.length = (initState "oi").current_step) ∧
      (Node.intent_analysis ≠ Node.terminal → (initState "oi").final_answer = "")) ∧
    ∀ s', tool_execution (fun _ _ => .ok "r") mirrorState = .ok s' →
      s'.current_step = mirrorState.current_step + 1 ∧
      s'.results_history.length = mirrorState.results_history.length + 1 := by
  constructor
  · exact C7_state_invariant.1 .intent_analysis (initState "oi") (Reachable.start "oi")
  · intro s' hok
    exact C7_state_invariant.2 (fun _ _ => .ok "r") mirrorState s' (by decide) hok

/-! ### C9 — idempotence of extraction over its own serialization -/

/-- Without a fence marker in the text there is no fenced candidate. -/
theorem fencedSearch_none : ∀ cs : List Char,
    listSub cs fenceMark = false → fencedSearch cs = none := by
  intro cs
  induction cs with
  | nil => intro _; rfl
  | cons c rest ih =>
    intro h
    have hsplit : fenceMark.isPrefixOf (c :: rest) = false ∧ listSub rest fenceMark = false := by
      unfold listSub at h
      constructor
      · by_cases hp : fenceMark.isPrefixOf (c :: rest) = true
        · rw [if_pos hp] at h; cases h
        · revert hp; cases fenceMark.isPrefixOf (c :: rest) <;> simp
      · by_cases hp : fenceMark.isPrefixOf (c :: rest) = true
        · rw [if_pos hp] at h; cases h
        · rw [if_neg hp] at h; exact h
    unfold fencedSearch
    rw [hsplit.1]
    simp [ih hsplit.2]

/-- The greedy array span over a rendered array is the whole rendering. -/
theorem greedySpan_dumps_arr (xs : List JsonValue) :
    greedySpan '[' ']' (json_dumps (.arr xs)) = some (json_dumps (.arr xs)) := by
  unfold greedySpan json_dumps
  have hdata : (String.mk (printVal (.arr xs))).data = printVal (.arr xs) := rfl
  rw [hdata]
  have hshape : printVal (.arr xs) = '[' :: (printElems xs ++ [']']) := rfl
  have hfirst : firstIdxOf '[' (printVal (.arr xs)) = some 0 := by
    rw [hshape]
    simp [firstIdxOf, List.findIdx?]
  have hrev : (printVal (.arr xs)).reverse = ']' :: (printElems xs).reverse ++ ['['] := by
    rw [hshape]
    simp
  have hlast : lastIdxOf ']' (printVal (.arr xs)) =
      some ((printVal (.arr xs)).length - 1) := by
    unfold lastIdxOf
    rw [hrev]
    simp [List.findIdx?]
  have hlen : (printVal (.arr xs)).length = (printElems xs).length + 2 := by
    rw [hshape]; simp
  have hpos : 0 < (printVal (.arr xs)).length - 1 := by omega
  simp only [hfirst, hlast]
  rw [if_pos hpos]
  have harith : (printVal (.arr xs)).length - 1 - 0 + 1 = (printVal (.arr xs)).length := by
    omega
  rw [List.drop_zero, harith, List.take_length]

/-- Counterexample to C9 as stated: from the fenced response the extractor
returns the object `{"a": [1]}`, but re-extracting from that object's own
serialization returns the inner array `[1]` (the greedy array span is tried
before the object span), not an equal value. -/
theorem C9_counterexample :
    extract_json "```json\n\x7b\"a\": [1]\x7d\n```"
      = .ok (.obj [("a", .arr [.num 1])]) ∧
    json_dumps (.obj [("a", .arr [.num 1])]) = "\x7b\"a\": [1]\x7d" ∧
    extract_json "\x7b\"a\": [1]\x7d" = .ok (.arr [.num 1]) ∧
    JsonValue.arr [.num 1] ≠ JsonValue.obj [("a", .arr [.num 1])] := by
  refine ⟨by rfl, by rfl, by rfl, ?_⟩
  intro h
  cases h

/-- C9 (amended): extraction is idempotent on arrays — for every array value
whose serialization contains no fence marker, running `extract_json` on the
`json.dumps` output returns exactly that value.  (It fails for scalars, whose
serialization contains no candidate at all; for objects containing an array,
where the greedy array span wins; and it can fail for values whose strings
embed fenced JSON.) -/
theorem C9_idempotent_on_arrays : ∀ xs : List JsonValue,
    strContains (json_dumps (.arr xs)) (String.mk fenceMark) = false →
    extract_json (json_dumps (.arr xs)) = .ok (.arr xs) := by
  intro xs hnf
  have hfc : fencedCandidate (json_dumps (.arr xs)) = none := by
    unfold fencedCandidate
    rw [fencedSearch_none _ hnf]
    rfl
  have hgs := greedySpan_dumps_arr xs
  have hjl := json_loads_dumps (.arr xs)
  unfold extract_json
  rw [hfc]
  simp only [Option.bind]
  rw [hgs]
  simp only [Option.bind]
  rw [hjl]

/-- Witness for C9: the concrete array `[1, "a"]` — its serialization is
fence-free and extraction returns it unchanged. -/
theorem C9_witness :
    strContains (json_dumps (.arr [.num 1, .str "a"])) (String.mk fenceMark) = false ∧
    extract_json (json_dumps (.arr [.num 1, .str "a"])) = .ok (.arr [.num 1, .str "a"]) :=
  ⟨by decide, C9_idempotent_on_arrays [.num 1, .str "a"] (by decide)⟩

end SurveyAgent
